import Mathlib

set_option maxRecDepth 8000

/- Shallow embedding of the credit-card statement pipeline of this repository:
   src/classifier/rules.py, src/classifier/food_detector.py,
   src/classifier/classify.py and src/parser/pdf_parser.py.

   Modelling conventions:
   * Python str is modelled as Lean String (a list of characters); the case
     mapping of str.upper and the character classes of the regexes are taken
     in the ASCII range, which covers every rule keyword and pattern of the
     source.
   * Python float amounts are modelled as exact rationals (the spec treats
     amounts as decimal currency values).
   * datetime.now() is passed explicitly as a Now value.
   * Functions that can raise an uncaught exception are modelled in Except;
     exceptions that the source catches locally are modelled with Option. -/

deriving instance DecidableEq for Except

/-- Python str.upper (ASCII case mapping; every rule keyword is ASCII). -/
def pyUpper (s : String) : String := String.mk (s.data.map Char.toUpper)

/-- Python substring containment, the expression given by `pattern in text`. -/
def containsSub (pat text : String) : Bool := decide (pat.data <:+: text.data)

/-- Python text.startswith(pat). -/
def startsWithS (pat text : String) : Bool := decide (pat.data <+: text.data)

/-- src/classifier/rules.py IGNORE_PATTERNS. -/
def IGNORE_PATTERNS : List String :=
  ["PAYMENT", "THANK YOU", "PAIEMENT", "BALANCE", "INTEREST", "FEE"]

/-- src/classifier/rules.py HARD_OVERRIDES, an ordered (pattern, category) list. -/
def HARD_OVERRIDES : List (String × String) :=
  [("PRESTO", "presto"),
   ("FLYWIRE", "personal"),
   ("OCAS", "personal"),
   ("OPENAI", "personal"),
   ("CU* RM FINANCE", "school"),
   ("WAL-MART", "groceries"),
   ("WALMART", "groceries"),
   ("FRESHCO", "groceries"),
   ("FORTINOS", "groceries"),
   ("DOLLARAMA", "groceries"),
   ("SHOPPERS", "groceries"),
   ("SPOTIFY", "other"),
   ("CITY OF", "other")]

/-- src/classifier/food_detector.py FOOD_KEYWORDS. -/
def FOOD_KEYWORDS : List String :=
  ["MCDONALD", "KFC", "TACO", "BURRITO", "SUB", "PIZZA", "SHELBYS",
   "TIM HORTONS", "STARBUCKS", "COFFEE", "CAFE", "RESTAURANT", "DINER",
   "GRILL", "BISTRO", "KITCHEN", "UBER EATS", "UBEREATS", "DOORDASH", "SKIP"]

/-- src/classifier/food_detector.py FOOD_EXCLUSIONS. -/
def FOOD_EXCLUSIONS : List String :=
  ["FRESHCO", "FORTINOS", "LOBLAWS", "WAL-MART", "WALMART", "DOLLARAMA",
   "SHOPPERS", "SUPERCENTER"]

/-- src/classifier/classify.py CATEGORIES. -/
def CATEGORIES : List String :=
  ["school meals", "food", "groceries", "presto", "school", "personal",
   "mom stuff", "other"]

/-- rules.should_ignore: any ignore pattern occurs in the upper-cased merchant. -/
def should_ignore (merchant_description : String) : Bool :=
  IGNORE_PATTERNS.any (fun p => containsSub p (pyUpper merchant_description))

/-- rules.get_hard_override: first (pattern, category) pair whose pattern is a
prefix of, or occurs inside, the upper-cased merchant; its category. -/
def get_hard_override (merchant_description : String) : Option String :=
  (HARD_OVERRIDES.find? (fun pc =>
      startsWithS pc.1 (pyUpper merchant_description) ||
      containsSub pc.1 (pyUpper merchant_description))).map Prod.snd

/-- food_detector.is_food_type_merchant. -/
def is_food_type_merchant (merchant_description : String) (amount : ℚ) : Bool :=
  if FOOD_EXCLUSIONS.any (fun e => containsSub e (pyUpper merchant_description)) then
    false
  else if FOOD_KEYWORDS.any (fun k => containsSub k (pyUpper merchant_description)) then
    true
  else if amount ≤ 25 ∧ merchant_description.length < 40 then
    true
  else
    false

/-- A calendar date with no time component (datetime is only ever built and
compared at day granularity by this program). -/
structure Date where
  year : ℕ
  month : ℕ
  day : ℕ
deriving DecidableEq

/-- Gregorian leap-year test, as in the datetime module. -/
def isLeapYear (y : ℕ) : Bool := y % 4 == 0 && (y % 100 != 0 || y % 400 == 0)

/-- Days in a month, as validated by the datetime constructor. -/
def days_in_month (y m : ℕ) : ℕ :=
  if m = 2 then (if isLeapYear y then 29 else 28)
  else if m = 4 ∨ m = 6 ∨ m = 9 ∨ m = 11 then 30
  else 31

/-- datetime(year, month, day): returns the date when the fields are in range
(MINYEAR 1 to MAXYEAR 9999, valid month, valid day) and none otherwise; the
caller decides whether a none is a caught or an uncaught ValueError. -/
def mkDatetime (y m d : ℤ) : Option Date :=
  if 1 ≤ y ∧ y ≤ 9999 ∧ 1 ≤ m ∧ m ≤ 12 ∧ 1 ≤ d ∧
      d ≤ (days_in_month y.toNat m.toNat : ℤ) then
    some ⟨y.toNat, m.toNat, d.toNat⟩
  else none

/-- Days before January 1 of year y in the proleptic Gregorian calendar
(CPython datetime `_days_before_year`; the subtraction is safe because
(y-1)/100 ≤ (y-1)/4). -/
def daysBeforeYear (y : ℕ) : ℕ :=
  365 * (y - 1) + (y - 1) / 4 + (y - 1) / 400 - (y - 1) / 100

/-- Days in year y strictly before month m (CPython `_days_before_month`). -/
def daysBeforeMonth (y m : ℕ) : ℕ :=
  [0, 31, 59, 90, 120, 151, 181, 212, 243, 273, 304, 334].getD (m - 1) 0 +
    (if 2 < m ∧ isLeapYear y then 1 else 0)

/-- date.toordinal(): day number with January 1 of year 1 as day 1. -/
def toordinal (dt : Date) : ℕ :=
  daysBeforeYear dt.year + daysBeforeMonth dt.year dt.month + dt.day

/-- datetime.weekday(): 0 = Monday ... 6 = Sunday. -/
def weekday (dt : Date) : ℕ := (toordinal dt + 6) % 7

/-- classify.classify_transaction: the ordered rule cascade.  Python returns
None or a category string; modelled as Option String. -/
def classify_transaction (merchant_description : String) (transaction_date : Date)
    (amount : ℚ) : Option String :=
  if should_ignore merchant_description then
    none
  else
    match get_hard_override merchant_description with
    | some c => some c
    | none =>
      if is_food_type_merchant merchant_description amount then
        (if weekday transaction_date < 5 then some "school meals" else some "food")
      else if amount ≥ 100 then some "school"
      else if amount ≤ 10 then some "groceries"
      else some "other"

/-- pdf_parser.Transaction: merchant text (stripped by the constructor),
transaction date and amount. -/
structure Tx where
  merchant_description : String
  transaction_date : Date
  amount : ℚ
deriving DecidableEq

/-- The for-loop of classify.aggregate_by_category over the transaction list:
state is (category totals as an association list, skipped count); a classifier
verdict outside the totals keys raises ValueError, modelled as Except.error. -/
def aggLoop : List Tx → List (String × ℚ) × ℕ → Except String (List (String × ℚ) × ℕ)
  | [], st => .ok st
  | t :: ts, st =>
    match classify_transaction t.merchant_description t.transaction_date t.amount with
    | none => aggLoop ts (st.1, st.2 + 1)
    | some c =>
      if c ∈ st.1.map Prod.fst then
        aggLoop ts (st.1.map (fun p => if p.1 = c then (p.1, p.2 + t.amount) else p), st.2)
      else
        .error (String.append "Invalid category: " c)

/-- classify.aggregate_by_category: totals initialised to zero for every
category, then the loop, then categories with non-positive totals dropped. -/
def aggregate_by_category (transactions : List Tx) :
    Except String (List (String × ℚ) × ℕ) :=
  (aggLoop transactions (CATEGORIES.map (fun c => (c, (0 : ℚ))), 0)).map
    (fun st => (st.1.filter (fun p => decide ((0 : ℚ) < p.2)), st.2))

/- ===================== Parser (src/parser/pdf_parser.py) ===================== -/

/-- The whitespace set of Python str.strip / str.split and of the regex class
backslash-s, in the ASCII range. -/
def isWs (c : Char) : Bool :=
  c == ' ' || c == '\t' || c == '\n' || c == '\r' || c == '\x0b' || c == '\x0c'

/-- A digit-or-comma character, the regex class [digits-comma] of the amount
patterns. -/
def isDigComma (c : Char) : Bool := c.isDigit || c == ','

/-- An ASCII capital, the regex class A to Z of the date patterns. -/
def isUpperAZ (c : Char) : Bool := 'A' ≤ c && c ≤ 'Z'

/-- Python str.strip on a character list. -/
def pyStripL (l : List Char) : List Char :=
  ((l.dropWhile isWs).reverse.dropWhile isWs).reverse

/-- Python str.strip. -/
def pyStrip (s : String) : String := String.mk (pyStripL s.data)

/-- Digit list to number, most significant first. -/
def natOfDigits (l : List Char) : ℕ :=
  l.foldl (fun n c => 10 * n + (c.toNat - 48)) 0

/-- Python int() on the digit-shaped strings this program feeds it: optional
surrounding whitespace, optional sign, a nonempty run of ASCII digits; anything
else raises ValueError, modelled as none. -/
def pyInt (s : String) : Option ℤ :=
  match pyStripL s.data with
  | [] => none
  | '+' :: ds => if ds ≠ [] ∧ ds.all Char.isDigit then some (natOfDigits ds : ℤ) else none
  | '-' :: ds => if ds ≠ [] ∧ ds.all Char.isDigit then some (-(natOfDigits ds : ℤ)) else none
  | ds => if ds.all Char.isDigit then some (natOfDigits ds : ℤ) else none

/-- Python s.split(sep) for a one-character separator (keeps empty fields). -/
def splitOnCharAux (sep : Char) : List Char → List Char → List (List Char)
  | [], cur => [cur.reverse]
  | c :: rest, cur =>
    if c == sep then cur.reverse :: splitOnCharAux sep rest []
    else splitOnCharAux sep rest (c :: cur)

/-- Python s.split(sep) for a one-character separator, on strings. -/
def pySplitChar (sep : Char) (s : String) : List String :=
  (splitOnCharAux sep s.data []).map String.mk

/-- Python s.split() with no argument: split on whitespace runs, no empties. -/
def splitWsCore : List Char → List Char → List (List Char)
  | [], cur => if cur = [] then [] else [cur.reverse]
  | c :: rest, cur =>
    if isWs c then
      (if cur = [] then splitWsCore rest [] else cur.reverse :: splitWsCore rest [])
    else splitWsCore rest (c :: cur)

/-- Python str.split() on a character list. -/
def pySplitWs (l : List Char) : List (List Char) := splitWsCore l []

/-- re.sub of a whitespace run by a single space (each maximal run of
whitespace becomes one space character). -/
def collapseWsAux : Bool → List Char → List Char
  | _, [] => []
  | prevWs, c :: rest =>
    if isWs c then
      (if prevWs then collapseWsAux true rest else ' ' :: collapseWsAux true rest)
    else c :: collapseWsAux false rest

/-- re.sub of whitespace runs by single spaces, at the top level. -/
def collapseWs (l : List Char) : List Char := collapseWsAux false l

/-- Sequence join with a separator, Python sep.join. -/
def joinSep (sep : List Char) : List (List Char) → List Char
  | [] => []
  | [x] => x
  | x :: y :: rest => x ++ sep ++ joinSep sep (y :: rest)

/-- The model of datetime.now(): the current year and month, the only fields
the source reads. -/
structure Now where
  year : ℕ
  month : ℕ
deriving DecidableEq

/-- The duplicated year-inference statement of pdf_parser (lines 209-212,
224-226, 288-292): current year, minus one when the parsed month exceeds the
current month. -/
def inferYear (now : Now) (month : ℤ) : ℤ :=
  if month > (now.month : ℤ) then (now.year : ℤ) - 1 else (now.year : ℤ)

/- ---- amount token recognition (regex `[\d,]+\.\d{2}` with its backtracking) ---- -/

/-- Match a dot followed by exactly two digits at the head of the list,
returning the three matched characters and the remainder. -/
def dotDD : List Char → Option (List Char × List Char)
  | '.' :: a :: b :: rest =>
    if a.isDigit && b.isDigit then some (['.', a, b], rest) else none
  | _ => none

/-- Backtracking over the greedy one-or-more digit-or-comma run: try a run of
length k first, then shorter, as the regex engine does.  Returns the whole
matched token and the remainder. -/
def numTokBT (l : List Char) : ℕ → Option (List Char × List Char)
  | 0 => none
  | k + 1 =>
    match dotDD (l.drop (k + 1)) with
    | some (dd, rest) => some (l.take (k + 1) ++ dd, rest)
    | none => numTokBT l k

/-- Match the amount token grammar at the head of the list (digit-or-comma run,
dot, two digits), greedily with backtracking. -/
def numTokAt (l : List Char) : Option (List Char × List Char) :=
  numTokBT l (l.takeWhile isDigComma).length

/-- re.search of the table amount pattern (optional dollar sign, then the
amount token): leftmost position where it matches; returns group 1. -/
def findAmountTok : List Char → Option (List Char)
  | [] => none
  | c :: rest =>
    match (if c == '$' then numTokAt rest else numTokAt (c :: rest)) with
    | some (tok, _) => some tok
    | none => findAmountTok rest

/-- float() applied to the matched group with commas removed: integer digits,
a dot, fractional digits, read exactly (the spec treats amounts as decimal). -/
def ratOfTok (tok : List Char) : ℚ :=
  let cl := tok.filter (fun c => c ≠ ',')
  let ip := cl.takeWhile (fun c => c ≠ '.')
  let fp := (cl.dropWhile (fun c => c ≠ '.')).drop 1
  (natOfDigits ip : ℚ) + (natOfDigits fp : ℚ) / ((10 : ℚ) ^ fp.length)

/-- The tail of the text amount pattern after its dollar sign: optional
whitespace, the amount token, then nothing but whitespace to the end of the
line.  Backtracks over the token run as the regex engine does. -/
def numTokTailBT (l : List Char) : ℕ → Option (List Char)
  | 0 => none
  | k + 1 =>
    match dotDD (l.drop (k + 1)) with
    | some (dd, rest) =>
      if rest.all isWs then some (l.take (k + 1) ++ dd) else numTokTailBT l k
    | none => numTokTailBT l k

/-- Match whitespace, amount token, trailing whitespace, end-of-line. -/
def tailNumMatch (l : List Char) : Option (List Char) :=
  numTokTailBT (l.dropWhile isWs) ((l.dropWhile isWs).takeWhile isDigComma).length

/-- re.search of the text amount pattern (dollar sign, whitespace, token,
whitespace, end of line): returns the index of the dollar sign (match start)
and group 1. -/
def textAmountSearch : List Char → Option (ℕ × List Char)
  | [] => none
  | c :: rest =>
    if c == '$' then
      match tailNumMatch rest with
      | some tok => some (0, tok)
      | none => (textAmountSearch rest).map (fun p => (p.1 + 1, p.2))
    else (textAmountSearch rest).map (fun p => (p.1 + 1, p.2))

/- ---- date token recognition ---- -/

/-- re.match of the table date pattern (one or two digits, slash, one or two
digits, then an optional slash-year group that can always match empty): a
prefix test, written out with the backtracking of the greedy month digits. -/
def tableDateMatch (s : String) : Bool :=
  match s.data with
  | a :: b :: c :: d :: _ =>
    a.isDigit && ((b.isDigit && c == '/' && d.isDigit) || (b == '/' && c.isDigit))
  | [a, b, c] => a.isDigit && b == '/' && c.isDigit
  | _ => false

/-- Three ASCII capitals at the head of the list (a month abbreviation slot). -/
def caps3 : List Char → Option (List Char × List Char)
  | a :: b :: c :: rest =>
    if isUpperAZ a && isUpperAZ b && isUpperAZ c then some ([a, b, c], rest) else none
  | _ => none

/-- One-or-more whitespace at the head of the list (greedy, no backtracking is
ever needed because the characters that follow it in the patterns are never
whitespace). -/
def wsPlus : List Char → Option (List Char)
  | c :: rest => if isWs c then some (rest.dropWhile isWs) else none
  | [] => none

/-- Digit value of an ASCII digit character. -/
def dval (c : Char) : ℕ := c.toNat - 48

/-- A one-or-two digit day group followed by mandatory whitespace: the greedy
two-digit day is taken when the whitespace follows it; the one-digit
backtracking alternative always fails because the next character is then the
second digit. -/
def dayThenWs (l : List Char) : Option (ℕ × List Char) :=
  match l with
  | a :: rest =>
    if a.isDigit then
      match rest with
      | b :: rest2 =>
        if b.isDigit then
          match wsPlus rest2 with
          | some r => some (10 * dval a + dval b, r)
          | none => none
        else
          match wsPlus rest with
          | some r => some (dval a, r)
          | none => none
      | [] => none
    else none
  | [] => none

/-- A one-or-two digit day group at the end of a pattern: greedily two digits
when available, else one. -/
def dayFinal (l : List Char) : Option (ℕ × List Char) :=
  match l with
  | a :: b :: rest =>
    if a.isDigit then
      (if b.isDigit then some (10 * dval a + dval b, rest) else some (dval a, b :: rest))
    else none
  | [a] => if a.isDigit then some (dval a, []) else none
  | [] => none

/-- Match of the dual date pattern (month, day, month, day) at the head of the
list: returns the second month abbreviation, the second day and the number of
characters consumed, as the regex match object yields group 3, group 4 and
end(). -/
def dualAt (l : List Char) : Option (List Char × ℕ × ℕ) :=
  match caps3 l with
  | none => none
  | some (_, r1) =>
    match wsPlus r1 with
    | none => none
    | some r2 =>
      match dayThenWs r2 with
      | none => none
      | some (_, r3) =>
        match caps3 r3 with
        | none => none
        | some (ms2, r4) =>
          match wsPlus r4 with
          | none => none
          | some r5 =>
            match dayFinal r5 with
            | none => none
            | some (d2, r6) => some (ms2, d2, l.length - r6.length)

/-- Match of the single date pattern (month, day) at the head of the list:
returns the month abbreviation, the day and characters consumed. -/
def singleAt (l : List Char) : Option (List Char × ℕ × ℕ) :=
  match caps3 l with
  | none => none
  | some (ms, r1) =>
    match wsPlus r1 with
    | none => none
    | some r2 =>
      match dayFinal r2 with
      | none => none
      | some (d, r3) => some (ms, d, l.length - r3.length)

/-- re.search for dualAt: leftmost match; the returned end index is relative to
the whole line. -/
def searchDual (i : ℕ) : List Char → Option (List Char × ℕ × ℕ)
  | [] => none
  | c :: rest =>
    match dualAt (c :: rest) with
    | some (ms, d, consumed) => some (ms, d, i + consumed)
    | none => searchDual (i + 1) rest

/-- re.search for singleAt: leftmost match. -/
def searchSingle (i : ℕ) : List Char → Option (List Char × ℕ × ℕ)
  | [] => none
  | c :: rest =>
    match singleAt (c :: rest) with
    | some (ms, d, consumed) => some (ms, d, i + consumed)
    | none => searchSingle (i + 1) rest

/-- The months dictionary of _extract_transactions_from_text. -/
def MONTHS : List (String × ℕ) :=
  [("JAN", 1), ("FEB", 2), ("MAR", 3), ("APR", 4), ("MAY", 5), ("JUN", 6),
   ("JUL", 7), ("AUG", 8), ("SEP", 9), ("OCT", 10), ("NOV", 11), ("DEC", 12)]

/-- The header vocabulary skipped by text extraction. -/
def HEADER_WORDS : List String :=
  ["TRANSACTION", "POSTING", "ACTIVITY", "DESCRIPTION", "AMOUNT", "DATE"]

/-- part.isdigit() and len(part) >= 15: a long purely numeric token. -/
def isLongDigits (p : List Char) : Bool := p ≠ [] && p.all Char.isDigit && 15 ≤ p.length

/-- re.match of caret digits dash digits dollar-anchor: the account-number
shaped token (one-or-more digits, a dash, one-or-more digits, nothing else). -/
def isAcctShape (p : List Char) : Bool :=
  let a := p.takeWhile Char.isDigit
  match p.drop a.length with
  | '-' :: b => a ≠ [] && b ≠ [] && b.all Char.isDigit
  | _ => false

/-- pdf_parser._parse_date on the slash-separated parts of the date string
(two parts: month/day with the year inferred; three parts: explicit year,
two-digit years get 2000 added; otherwise none). -/
def pdFromParts (now : Now) : List String → Option Date
  | [ms, ds] =>
    match pyInt ms, pyInt ds with
    | some m, some d => mkDatetime (inferYear now m) m d
    | _, _ => none
  | [ms, ds, ys] =>
    match pyInt ms, pyInt ds with
    | some m, some d =>
      match (if ys.length = 2 then (pyInt ys).map (fun v => 2000 + v) else pyInt ys) with
      | some y => mkDatetime y m d
      | none => none
    | _, _ => none
  | _ => none

/-- pdf_parser._parse_date: split the date string on slashes and build the
date; every ValueError is caught there and yields none. -/
def parse_date (now : Now) (s : String) : Option Date :=
  pdFromParts now (pySplitChar '/' s)

/- ---- table extraction ---- -/

/-- The running row state of _extract_transactions_from_table: first
date-shaped cell, concatenated merchant cells, first amount. -/
structure RowScan where
  dateStr : Option String
  merchant : Option String
  amount : Option ℚ
deriving DecidableEq

/-- Python falsiness of the captured amount (None or 0.0), which guards the
merchant branch of the cell loop. -/
def amtFalsy : Option ℚ → Bool
  | none => true
  | some q => q == 0

/-- One iteration of the cell loop of _extract_transactions_from_table: skip
falsy cells, else strip; capture the first date-shaped cell, else the first
amount match (float of group 1 with commas removed never raises on a matched
token), else concatenate a non-trivial cell onto the merchant when neither a
date nor an amount has been captured yet. -/
def scanCell (st : RowScan) (cell : Option String) : RowScan :=
  match cell with
  | none => st
  | some raw =>
    if raw = "" then st
    else
      let cs := pyStrip raw
      if tableDateMatch cs ∧ st.dateStr = none then
        { st with dateStr := some cs }
      else if (findAmountTok cs.data).isSome ∧ st.amount = none then
        { st with amount := (findAmountTok cs.data).map ratOfTok }
      else if st.dateStr = none ∧ amtFalsy st.amount ∧ 3 < cs.length then
        let merged : String :=
          match st.merchant with
          | some m => if m ≠ "" then m ++ " " ++ cs else cs
          | none => cs
        { st with merchant := some merged }
      else st

/-- pdf_parser._extract_transactions_from_table: scan each row of at least two
cells; a row yields a transaction when the date string and merchant are truthy,
the amount was captured and is positive, and the date parses. -/
def extractFromTable (now : Now) : List (List (Option String)) → List Tx
  | [] => []
  | row :: rest =>
    let tail := extractFromTable now rest
    if row.length < 2 then tail
    else
      match row.foldl scanCell ⟨none, none, none⟩ with
      | ⟨some ds, some m, some a⟩ =>
        if ds ≠ "" ∧ m ≠ "" ∧ 0 < a then
          match parse_date now ds with
          | some dt => ⟨pyStrip m, dt, a⟩ :: tail
          | none => tail
        else tail
      | _ => tail

/- ---- text extraction ---- -/

/-- The merchant text between the date match and the amount match of one line:
slice, strip, split on whitespace, drop long numeric IDs and account-number
shapes, join with single spaces, collapse whitespace runs. -/
def merchantBetween (line : List Char) (dateEnd amtStart : ℕ) : List Char :=
  let between := pyStripL ((line.take amtStart).drop dateEnd)
  let parts := (pySplitWs between).filter (fun p => ¬ (isLongDigits p || isAcctShape p))
  collapseWs (pyStripL (joinSep [' '] parts))

/-- The rest of the line handling of _extract_transactions_from_text once a
transaction date has been resolved: find the trailing amount, build the
merchant text, skip the line when the merchant is shorter than two characters
or the amount is not positive. -/
def afterDate (line : List Char) (dt : Date) (dateEnd : ℕ) : Option Tx :=
  match textAmountSearch line with
  | none => none
  | some (amtStart, tok) =>
    let merchant := merchantBetween line dateEnd amtStart
    if merchant.length < 2 then none
    else
      let amount := ratOfTok tok
      if 0 < amount then some ⟨pyStrip (String.mk merchant), dt, amount⟩ else none

/-- One line of _extract_transactions_from_text: strip; skip empty and header
lines; search the dual date pattern first, falling back to the single date
pattern; look the month abbreviation up (an unknown abbreviation skips the
line); infer the year; datetime() here is NOT inside a try block, so an
out-of-range day raises an uncaught ValueError, modelled as Except.error. -/
def lineResult (now : Now) (raw : String) : Except String (Option Tx)
  :=
  let line := pyStrip raw
  if line = "" then .ok none
  else if HEADER_WORDS.any (fun h => containsSub h (pyUpper line)) then .ok none
  else
    match searchDual 0 line.data with
    | some (ms, d, dateEnd) =>
      match MONTHS.lookup (String.mk ms) with
      | some m =>
        match mkDatetime (inferYear now (m : ℤ)) (m : ℤ) (d : ℤ) with
        | some dt => .ok (afterDate line.data dt dateEnd)
        | none => .error "ValueError: day is out of range for month"
      | none => .ok none
    | none =>
      match searchSingle 0 line.data with
      | some (ms, d, dateEnd) =>
        match MONTHS.lookup (String.mk ms) with
        | some m =>
          match mkDatetime (inferYear now (m : ℤ)) (m : ℤ) (d : ℤ) with
          | some dt => .ok (afterDate line.data dt dateEnd)
          | none => .error "ValueError: day is out of range for month"
        | none => .ok none
      | none => .ok none

/-- The while-loop of _extract_transactions_from_text over the lines. -/
def textLoop (now : Now) : List String → List Tx → Except String (List Tx)
  | [], acc => .ok acc
  | ln :: rest, acc =>
    match lineResult now ln with
    | .ok none => textLoop now rest acc
    | .ok (some t) => textLoop now rest (acc ++ [t])
    | .error e => .error e

/-- pdf_parser._extract_transactions_from_text: split the page text on
newlines and process each line. -/
def extractFromText (now : Now) (text : String) : Except String (List Tx) :=
  textLoop now (pySplitChar '\n' text) []

/- ---- per-page merge ---- -/

/-- The duplicate-identity key of the merge: (merchant, amount, date). -/
def txKey (t : Tx) : String × ℚ × Date :=
  (t.merchant_description, t.amount, t.transaction_date)

/-- The text-transaction loop of PDFParser.parse lines 86-90: append a
text-derived transaction when its key is not yet in the set, growing the set. -/
def mergeDedup (existing : List (String × ℚ × Date)) : List Tx → List Tx
  | [] => []
  | t :: ts =>
    if txKey t ∈ existing then mergeDedup existing ts
    else t :: mergeDedup (txKey t :: existing) ts

/-- A page as exposed by the document oracle: the extracted table grids and
the extracted text (None when the library yields no text object). -/
structure Page where
  tables : List (List (List (Option String)))
  text : Option String

/-- One page of PDFParser.parse: table transactions from every table; then,
only when the page text is truthy, text extraction and the combine step
(table transactions first, then non-duplicate text transactions; with no table
transactions, all text transactions). -/
def parsePage (now : Now) (acc : List Tx) (pg : Page) : Except String (List Tx) :=
  let tableTxs := (pg.tables.map (extractFromTable now)).flatten
  match pg.text with
  | some s =>
    if s ≠ "" then
      match extractFromText now s with
      | .ok textTxs =>
        if tableTxs ≠ [] then
          .ok (acc ++ tableTxs ++ mergeDedup (tableTxs.map txKey) textTxs)
        else .ok (acc ++ textTxs)
      | .error e => .error e
    else .ok acc
  | none => .ok acc

/-- The page loop of PDFParser.parse. -/
def parsePages (now : Now) : List Page → List Tx → Except String (List Tx)
  | [], acc => .ok acc
  | pg :: rest, acc =>
    match parsePage now acc pg with
    | .ok acc2 => parsePages now rest acc2
    | .error e => .error e

/-- PDFParser.parse over the pages the document oracle yields. -/
def parse (now : Now) (pages : List Page) : Except String (List Tx) :=
  parsePages now pages []

/- ===================== statement-side definitions ===================== -/

/-- The non-ignore categories the classifier cascade can actually produce. -/
def okCats : List String :=
  ["presto", "personal", "school", "groceries", "other", "school meals", "food"]

/-- The shape of a matched amount-token group: a nonempty run of digit-or-comma
characters, a dot, and exactly two digits. -/
def TokShape (tok : List Char) : Prop :=
  ∃ body a b, tok = body ++ ['.', a, b] ∧ body ≠ [] ∧
    (∀ c ∈ body, isDigComma c = true) ∧ a.isDigit = true ∧ b.isDigit = true

/-- Modelled from the spec words cited by claim C9: a currency token is an
optional dollar sign followed by digits (with optional comma thousands
separators, hence at least one digit) and exactly two decimal digits.  This
tests whether such a token starts at the head of the list, body first. -/
def bodyTokAt (l : List Char) : Bool :=
  (List.range ((l.takeWhile isDigComma).length + 1)).any (fun k =>
    decide (0 < k) && (l.take k).any Char.isDigit &&
    (match l.drop k with
     | '.' :: a :: b :: _ => a.isDigit && b.isDigit
     | _ => false))

/-- Modelled from the spec words cited by claim C9: whether the text contains,
anywhere, a currency token of the claimed shape (optional dollar sign, digits
with optional comma separators, dot, two decimal digits). -/
def specTokenSomewhere : List Char → Bool
  | [] => false
  | c :: rest =>
    bodyTokAt (c :: rest) || (if c == '$' then bodyTokAt rest else false) ||
      specTokenSomewhere rest

/-- Sum of all transaction amounts. -/
def sumAmounts (ts : List Tx) : ℚ := (ts.map Tx.amount).sum

/-- Whether the classifier verdict on a transaction is IGNORE. -/
def isIgnoredTx (t : Tx) : Bool :=
  (classify_transaction t.merchant_description t.transaction_date t.amount).isNone

/-- Sum of the amounts of IGNORE-verdict transactions. -/
def ignoredSum (ts : List Tx) : ℚ := ((ts.filter isIgnoredTx).map Tx.amount).sum

/-- Number of IGNORE-verdict transactions. -/
def ignoredCount (ts : List Tx) : ℕ := (ts.filter isIgnoredTx).length

/-- Sum of the amounts of transactions with a category verdict. -/
def nonIgnoredSum (ts : List Tx) : ℚ :=
  ((ts.filter (fun t => ¬ isIgnoredTx t)).map Tx.amount).sum

/- ===================== helper lemmas ===================== -/

/-- A hard-override result is the category of some table entry. -/
theorem override_mem {m c : String} (h : get_hard_override m = some c) :
    c ∈ HARD_OVERRIDES.map Prod.snd := by
  unfold get_hard_override at h
  obtain ⟨pc, hf, hsnd⟩ := Option.map_eq_some'.mp h
  exact hsnd ▸ List.mem_map_of_mem Prod.snd (List.mem_of_find?_eq_some hf)

/-- The classifier returns none or a category from okCats. -/
theorem classify_cases (m : String) (d : Date) (a : ℚ) :
    classify_transaction m d a = none ∨
    ∃ c, classify_transaction m d a = some c ∧ c ∈ okCats := by
  by_cases hig : should_ignore m = true
  · left; simp [classify_transaction, hig]
  · have hig' : should_ignore m = false := by
      revert hig; cases should_ignore m <;> simp
    cases hov : get_hard_override m with
    | some c =>
      right
      refine ⟨c, by simp [classify_transaction, hig', hov], ?_⟩
      have hover : ∀ x ∈ HARD_OVERRIDES.map Prod.snd, x ∈ okCats := by decide
      exact hover c (override_mem hov)
    | none =>
      right
      by_cases hf : is_food_type_merchant m a = true
      · by_cases hw : weekday d < 5
        · exact ⟨"school meals", by simp [classify_transaction, hig', hov, hf, hw], by decide⟩
        · exact ⟨"food", by simp [classify_transaction, hig', hov, hf, hw], by decide⟩
      · have hf' : is_food_type_merchant m a = false := by
          revert hf; cases is_food_type_merchant m a <;> simp
        by_cases h1 : a ≥ 100
        · exact ⟨"school", by simp [classify_transaction, hig', hov, hf', h1], by decide⟩
        · by_cases h2 : a ≤ 10
          · exact ⟨"groceries", by simp [classify_transaction, hig', hov, hf', h1, h2], by decide⟩
          · exact ⟨"other", by simp [classify_transaction, hig', hov, hf', h1, h2], by decide⟩

/-- Updating the total of one key leaves the key list unchanged. -/
theorem map_upd_fst (l : List (String × ℚ)) (c : String) (a : ℚ) :
    (l.map (fun p => if p.1 = c then (p.1, p.2 + a) else p)).map Prod.fst =
      l.map Prod.fst := by
  induction l with
  | nil => rfl
  | cons p l ih => by_cases hp : p.1 = c <;> simp [hp, ih]

/-- Updating the total of a key that is absent changes nothing. -/
theorem map_upd_id (l : List (String × ℚ)) (c : String) (a : ℚ)
    (h : c ∉ l.map Prod.fst) :
    l.map (fun p => if p.1 = c then (p.1, p.2 + a) else p) = l := by
  induction l with
  | nil => rfl
  | cons q l ih =>
    have hq : q.1 ≠ c := fun he => h (by simp [he])
    have h2 : c ∉ l.map Prod.fst := fun hm => h (by simp [hm])
    simp [hq, ih h2]

/-- Updating the total of a key that occurs exactly once adds the amount to the
sum of all totals exactly once. -/
theorem sum_update (l : List (String × ℚ)) (c : String) (a : ℚ)
    (h : (l.map Prod.fst).count c = 1) :
    ((l.map (fun p => if p.1 = c then (p.1, p.2 + a) else p)).map Prod.snd).sum =
      (l.map Prod.snd).sum + a := by
  induction l with
  | nil => simp at h
  | cons p l ih =>
    by_cases hp : p.1 = c
    · subst hp
      have h0 : (l.map Prod.fst).count p.1 = 0 := by
        simp only [List.map_cons, List.count_cons] at h
        simp at h
        omega
      have hid := map_upd_id l p.1 a (List.count_eq_zero.mp h0)
      simp only [List.map_cons, hid, List.sum_cons, if_true]
      show p.2 + a + (List.map Prod.snd l).sum = p.2 + (List.map Prod.snd l).sum + a
      ring
    · have h1 : (l.map Prod.fst).count c = 1 := by
        simp only [List.map_cons, List.count_cons] at h
        simpa [hp] using h
      simp only [List.map_cons, if_neg hp, List.sum_cons, ih h1]
      ring

/-- Updating with a nonnegative amount preserves nonnegative totals. -/
theorem upd_nonneg (l : List (String × ℚ)) (c : String) (a : ℚ)
    (hl : ∀ q ∈ l.map Prod.snd, 0 ≤ q) (ha : 0 ≤ a) :
    ∀ q ∈ (l.map (fun p => if p.1 = c then (p.1, p.2 + a) else p)).map Prod.snd, 0 ≤ q := by
  intro q hq
  simp only [List.map_map, List.mem_map, Function.comp] at hq
  obtain ⟨p, hpmem, hpq⟩ := hq
  have hp2 : 0 ≤ p.2 := hl p.2 (List.mem_map_of_mem Prod.snd hpmem)
  by_cases hp : p.1 = c
  · simp [hp] at hpq; rw [← hpq]; exact add_nonneg hp2 ha
  · simp [hp] at hpq; rw [← hpq]; exact hp2

/-- Dropping the non-positive entries of a nonnegative totals list keeps the
sum (the dropped entries are exactly zero). -/
theorem sum_filter_pos (l : List (String × ℚ)) (h : ∀ q ∈ l.map Prod.snd, 0 ≤ q) :
    ((l.filter (fun p => decide ((0 : ℚ) < p.2))).map Prod.snd).sum =
      (l.map Prod.snd).sum := by
  induction l with
  | nil => rfl
  | cons p l ih =>
    have hp : 0 ≤ p.2 := h p.2 (by simp)
    have ih2 := ih (fun q hq => h q (by simp [hq]))
    by_cases h0 : (0 : ℚ) < p.2
    · simp [List.filter_cons, h0, ih2]
    · have hz : p.2 = 0 := le_antisymm (not_lt.mp h0) hp
      simp [List.filter_cons, h0, ih2, hz]

/-- The total of all amounts splits into ignored and non-ignored parts. -/
theorem sumAmounts_split (ts : List Tx) :
    sumAmounts ts = nonIgnoredSum ts + ignoredSum ts := by
  induction ts with
  | nil => simp [sumAmounts, nonIgnoredSum, ignoredSum]
  | cons t ts ih =>
    by_cases hi : isIgnoredTx t = true
    · have h1 : sumAmounts (t :: ts) = t.amount + sumAmounts ts := by simp [sumAmounts]
      have h2 : nonIgnoredSum (t :: ts) = nonIgnoredSum ts := by
        simp [nonIgnoredSum, List.filter_cons, hi]
      have h3 : ignoredSum (t :: ts) = t.amount + ignoredSum ts := by
        simp [ignoredSum, List.filter_cons, hi]
      rw [h1, h2, h3, ih]; ring
    · have hi2 : isIgnoredTx t = false := by revert hi; cases isIgnoredTx t <;> simp
      have h1 : sumAmounts (t :: ts) = t.amount + sumAmounts ts := by simp [sumAmounts]
      have h2 : nonIgnoredSum (t :: ts) = t.amount + nonIgnoredSum ts := by
        simp [nonIgnoredSum, List.filter_cons, hi2]
      have h3 : ignoredSum (t :: ts) = ignoredSum ts := by
        simp [ignoredSum, List.filter_cons, hi2]
      rw [h1, h2, h3, ih]; ring

/-- What a successful dotDD match says about its input. -/
theorem dotDD_spec : ∀ {l dd rest : List Char}, dotDD l = some (dd, rest) →
    ∃ a b, dd = ['.', a, b] ∧ a.isDigit = true ∧ b.isDigit = true ∧ l = dd ++ rest := by
  intro l dd rest h
  unfold dotDD at h
  split at h
  next a b r =>
    by_cases hab : a.isDigit && b.isDigit
    · rw [if_pos hab] at h
      simp only [Option.some.injEq, Prod.mk.injEq] at h
      obtain ⟨h1, h2⟩ := h
      subst h1; subst h2
      have hab2 := hab
      simp only [Bool.and_eq_true] at hab2
      exact ⟨a, b, rfl, hab2.1, hab2.2, rfl⟩
    · rw [if_neg hab] at h; simp at h
  next => simp at h

/-- A prefix of the digit-or-comma run is a nonempty all-digit-or-comma body. -/
theorem take_body_shape (l : List Char) (k : ℕ)
    (hk : k + 1 ≤ (l.takeWhile isDigComma).length) :
    l.take (k + 1) ≠ [] ∧ ∀ c ∈ l.take (k + 1), isDigComma c = true := by
  constructor
  · have h1 : k + 1 ≤ l.length :=
      le_trans hk (List.takeWhile_sublist isDigComma).length_le
    have h2 : (l.take (k + 1)).length = k + 1 := by rw [List.length_take]; omega
    intro hnil; rw [hnil] at h2; simp at h2
  · intro c hc
    have h2 : l.take (k + 1) = (l.takeWhile isDigComma).take (k + 1) := by
      conv_lhs => rw [← List.takeWhile_append_dropWhile isDigComma l]
      rw [List.take_append_of_le_length hk]
    rw [h2] at hc
    exact List.mem_takeWhile_imp (List.mem_of_mem_take hc)

/-- What a successful backtracking token match says about its input. -/
theorem numTokBT_spec (l : List Char) :
    ∀ (k : ℕ) (tok rest : List Char), k ≤ (l.takeWhile isDigComma).length →
      numTokBT l k = some (tok, rest) →
      l = tok ++ rest ∧ TokShape tok := by
  intro k
  induction k with
  | zero => intro tok rest _ h; simp [numTokBT] at h
  | succ k ih =>
    intro tok rest hk h
    unfold numTokBT at h
    cases hd : dotDD (l.drop (k + 1)) with
    | none =>
      rw [hd] at h
      exact ih tok rest (Nat.le_of_succ_le hk) h
    | some pr =>
      obtain ⟨dd, rest2⟩ := pr
      rw [hd] at h
      simp only [Option.some.injEq, Prod.mk.injEq] at h
      obtain ⟨htok, hrest⟩ := h
      obtain ⟨a, b, hdd, ha, hb, hsplit⟩ := dotDD_spec hd
      subst hdd
      obtain ⟨hne, hall⟩ := take_body_shape l k hk
      constructor
      · rw [← htok, ← hrest]
        calc l = l.take (k + 1) ++ l.drop (k + 1) := (List.take_append_drop _ _).symm
          _ = l.take (k + 1) ++ (['.', a, b] ++ rest2) := by rw [hsplit]
          _ = (l.take (k + 1) ++ ['.', a, b]) ++ rest2 := by rw [List.append_assoc]
      · rw [← htok]
        exact ⟨l.take (k + 1), a, b, rfl, hne, hall, ha, hb⟩

/-- What a successful token match at a position says about its input. -/
theorem numTokAt_spec {l tok rest : List Char} (h : numTokAt l = some (tok, rest)) :
    l = tok ++ rest ∧ TokShape tok :=
  numTokBT_spec l _ tok rest (le_refl _) h

/-- Claim C9, table side: whenever the table amount search finds a token, the
token has the matched-group shape and occurs inside the cell. -/
theorem findAmountTok_spec : ∀ (l tok : List Char), findAmountTok l = some tok →
    TokShape tok ∧ tok <:+: l := by
  intro l
  induction l with
  | nil => intro tok h; simp [findAmountTok] at h
  | cons c rest ih =>
    intro tok h
    unfold findAmountTok at h
    cases hm : (if c == '$' then numTokAt rest else numTokAt (c :: rest)) with
    | some pr =>
      rw [hm] at h
      obtain ⟨tok0, rest0⟩ := pr
      simp only [Option.some.injEq] at h
      subst h
      by_cases hc : (c == '$') = true
      · rw [if_pos hc] at hm
        obtain ⟨hsplit, hshape⟩ := numTokAt_spec hm
        exact ⟨hshape, ⟨[c], rest0, by simp [← hsplit]⟩⟩
      · rw [if_neg hc] at hm
        obtain ⟨hsplit, hshape⟩ := numTokAt_spec hm
        exact ⟨hshape, ⟨[], rest0, by simp [← hsplit]⟩⟩
    | none =>
      rw [hm] at h
      obtain ⟨hshape, s, t, hst⟩ := ih tok h
      exact ⟨hshape, ⟨c :: s, t, by simp [← hst]⟩⟩

/-- What a successful tail token match (token then whitespace to the end) says
about its input. -/
theorem numTokTailBT_spec (l : List Char) :
    ∀ (k : ℕ) (tok : List Char), k ≤ (l.takeWhile isDigComma).length →
      numTokTailBT l k = some tok →
      ∃ rest, l = tok ++ rest ∧ rest.all isWs = true ∧ TokShape tok := by
  intro k
  induction k with
  | zero => intro tok _ h; simp [numTokTailBT] at h
  | succ k ih =>
    intro tok hk h
    unfold numTokTailBT at h
    cases hd : dotDD (l.drop (k + 1)) with
    | none => rw [hd] at h; exact ih tok (Nat.le_of_succ_le hk) h
    | some pr =>
      obtain ⟨dd, rest2⟩ := pr
      rw [hd] at h
      by_cases hws : rest2.all isWs = true
      · simp only [hws, eq_self_iff_true, if_true, Option.some.injEq] at h
        subst h
        obtain ⟨a, b, hdd, ha, hb, hsplit⟩ := dotDD_spec hd
        subst hdd
        obtain ⟨hne, hall⟩ := take_body_shape l k hk
        refine ⟨rest2, ?_, hws, l.take (k + 1), a, b, rfl, hne, hall, ha, hb⟩
        calc l = l.take (k + 1) ++ l.drop (k + 1) := (List.take_append_drop _ _).symm
          _ = l.take (k + 1) ++ (['.', a, b] ++ rest2) := by rw [hsplit]
          _ = (l.take (k + 1) ++ ['.', a, b]) ++ rest2 := by rw [List.append_assoc]
      · have hws2 : rest2.all isWs = false := by
          revert hws; cases rest2.all isWs <;> simp
        simp only [hws2, Bool.false_eq_true, if_false] at h
        exact ih tok (Nat.le_of_succ_le hk) h

/-- What a successful whitespace-token-whitespace-end match says. -/
theorem tailNumMatch_spec {l tok : List Char} (h : tailNumMatch l = some tok) :
    ∃ mid post, mid.all isWs = true ∧ post.all isWs = true ∧
      l = mid ++ tok ++ post ∧ TokShape tok := by
  unfold tailNumMatch at h
  obtain ⟨post, hsplit, hws, hshape⟩ := numTokTailBT_spec _ _ tok (le_refl _) h
  refine ⟨l.takeWhile isWs, post, ?_, hws, ?_, hshape⟩
  · rw [List.all_eq_true]; intro c hc; exact List.mem_takeWhile_imp hc
  · conv_lhs => rw [← List.takeWhile_append_dropWhile isWs l]
    rw [hsplit, List.append_assoc]

/-- Claim C9, text side: whenever the text amount search succeeds, the token
has the matched-group shape and the line ends in dollar sign, whitespace,
token, whitespace. -/
theorem textAmountSearch_spec : ∀ (l : List Char) (i : ℕ) (tok : List Char),
    textAmountSearch l = some (i, tok) →
    TokShape tok ∧ ∃ pre mid post, mid.all isWs = true ∧ post.all isWs = true ∧
      l = pre ++ '$' :: (mid ++ tok ++ post) := by
  intro l
  induction l with
  | nil => intro i tok h; simp [textAmountSearch] at h
  | cons c rest ih =>
    intro i tok h
    unfold textAmountSearch at h
    by_cases hc : (c == '$') = true
    · rw [if_pos hc] at h
      cases htm : tailNumMatch rest with
      | some tok0 =>
        rw [htm] at h
        simp only [Option.some.injEq, Prod.mk.injEq] at h
        obtain ⟨hi, htok⟩ := h
        subst htok
        obtain ⟨mid, post, hmid, hpost, hsplit, hshape⟩ := tailNumMatch_spec htm
        have hceq : c = '$' := by
          have := hc; rw [beq_iff_eq] at this; exact this
        subst hceq
        exact ⟨hshape, [], mid, post, hmid, hpost, by rw [hsplit]; rfl⟩
      | none =>
        rw [htm] at h
        obtain ⟨pr, hsr, hpair⟩ := Option.map_eq_some'.mp h
        obtain ⟨i0, tok0⟩ := pr
        simp only [Prod.mk.injEq] at hpair
        obtain ⟨hi, htok⟩ := hpair
        subst htok
        obtain ⟨hshape, pre, mid, post, hmid, hpost, hsplit⟩ := ih i0 tok0 hsr
        exact ⟨hshape, c :: pre, mid, post, hmid, hpost, by rw [hsplit]; rfl⟩
    · rw [if_neg hc] at h
      obtain ⟨pr, hsr, hpair⟩ := Option.map_eq_some'.mp h
      obtain ⟨i0, tok0⟩ := pr
      simp only [Prod.mk.injEq] at hpair
      obtain ⟨hi, htok⟩ := hpair
      subst htok
      obtain ⟨hshape, pre, mid, post, hmid, hpost, hsplit⟩ := ih i0 tok0 hsr
      exact ⟨hshape, c :: pre, mid, post, hmid, hpost, by rw [hsplit]; rfl⟩

/-- Folding digits from a nonzero accumulator shifts it by a power of ten. -/
theorem foldl_digits_shift (y : List Char) : ∀ n : ℕ,
    y.foldl (fun n c => 10 * n + (c.toNat - 48)) n =
      n * 10 ^ y.length + y.foldl (fun n c => 10 * n + (c.toNat - 48)) 0 := by
  induction y with
  | nil => intro n; simp
  | cons c y ih =>
    intro n
    simp only [List.foldl_cons, List.length_cons]
    rw [ih (10 * n + (c.toNat - 48)), ih (10 * 0 + (c.toNat - 48))]
    rw [pow_succ]
    ring

/-- natOfDigits over an append. -/
theorem natOfDigits_append (x y : List Char) :
    natOfDigits (x ++ y) = natOfDigits x * 10 ^ y.length + natOfDigits y := by
  unfold natOfDigits
  rw [List.foldl_append, foldl_digits_shift]

/-- takeWhile passes over a block that wholly satisfies the predicate. -/
theorem takeWhile_all_append (p : Char → Bool) (xs ys : List Char)
    (h : ∀ c ∈ xs, p c = true) :
    (xs ++ ys).takeWhile p = xs ++ ys.takeWhile p := by
  induction xs with
  | nil => simp
  | cons c xs ih =>
    have hc := h c (by simp)
    simp only [List.cons_append, List.takeWhile_cons, hc]
    rw [ih (fun u hu => h u (by simp [hu]))]
    simp

/-- dropWhile passes over a block that wholly satisfies the predicate. -/
theorem dropWhile_all_append (p : Char → Bool) (xs ys : List Char)
    (h : ∀ c ∈ xs, p c = true) :
    (xs ++ ys).dropWhile p = ys.dropWhile p := by
  induction xs with
  | nil => simp
  | cons c xs ih =>
    have hc := h c (by simp)
    simp only [List.cons_append, List.dropWhile_cons, hc]
    exact ih (fun u hu => h u (by simp [hu]))

/-- Pointwise equal predicates filter alike. -/
theorem filter_congr_on (l : List Char) (p q : Char → Bool)
    (h : ∀ c ∈ l, p c = q c) : l.filter p = l.filter q := by
  induction l with
  | nil => rfl
  | cons c l ih =>
    have hc := h c (by simp)
    simp only [List.filter_cons, hc]
    rw [ih (fun u hu => h u (by simp [hu]))]

/-- Claim C9, value side: on a token of the matched shape, the conversion the
code performs (strip commas, float) equals the decimal number formed by the
token digits over one hundred. -/
theorem ratOfTok_val (tok body : List Char) (a b : Char)
    (htok : tok = body ++ ['.', a, b]) (hbody : ∀ c ∈ body, isDigComma c = true)
    (ha : a.isDigit = true) (hb : b.isDigit = true) :
    ratOfTok tok = (natOfDigits (tok.filter Char.isDigit) : ℚ) / 100 := by
  subst htok
  have hane : a ≠ ',' := by
    intro he; rw [he] at ha; exact absurd ha (by decide)
  have hbne : b ≠ ',' := by
    intro he; rw [he] at hb; exact absurd hb (by decide)
  have hfilters : ∀ c ∈ body, (decide (c ≠ ',') : Bool) = Char.isDigit c := by
    intro c hc
    have hdc := hbody c hc
    simp only [isDigComma, Bool.or_eq_true] at hdc
    rcases hdc with hd | hcm
    · have : c ≠ ',' := by intro he; rw [he] at hd; exact absurd hd (by decide)
      simp [this, hd]
    · have : c = ',' := by rwa [beq_iff_eq] at hcm
      subst this
      simp
  unfold ratOfTok
  dsimp only
  rw [List.filter_append]
  have h3 : (['.', a, b].filter (fun c => decide (c ≠ ','))) = ['.', a, b] := by
    simp [List.filter, hane, hbne]
  rw [h3]
  have hbodyP : ∀ c ∈ body.filter (fun c => decide (c ≠ ',')),
      (decide (c ≠ '.') : Bool) = true := by
    intro c hc
    have hcm := List.mem_of_mem_filter hc
    have hdc := hbody c hcm
    simp only [isDigComma, Bool.or_eq_true] at hdc
    rcases hdc with hd | hcm2
    · have : c ≠ '.' := by intro he; rw [he] at hd; exact absurd hd (by decide)
      simpa using this
    · have : c = ',' := by rwa [beq_iff_eq] at hcm2
      subst this; simp
  rw [takeWhile_all_append _ _ _ hbodyP, dropWhile_all_append _ _ _ hbodyP]
  have h4 : (['.', a, b].takeWhile (fun c => decide (c ≠ '.'))) = [] := by
    simp [List.takeWhile]
  have h5 : (['.', a, b].dropWhile (fun c => decide (c ≠ '.'))) = ['.', a, b] := by
    simp [List.dropWhile]
  rw [h4, h5]
  have h6 : body.filter Char.isDigit = body.filter (fun c => decide (c ≠ ',')) :=
    filter_congr_on body _ _ (fun c hc => (hfilters c hc).symm)
  have h7 : (['.', a, b].filter Char.isDigit) = [a, b] := by
    simp [List.filter, ha, hb]
  rw [List.filter_append, h7, h6]
  simp only [List.append_nil, List.length_cons, List.length_nil, List.drop_succ_cons,
    List.drop_zero]
  rw [natOfDigits_append]
  simp only [List.length_cons, List.length_nil]
  push_cast
  rw [eq_div_iff (by norm_num : (100 : ℚ) ≠ 0)]
  ring_nf

/-- The aggregation loop never errors over a totals list keyed by CATEGORIES,
and its result is characterised by the classification of the transactions. -/
theorem aggLoop_spec :
    ∀ (ts : List Tx) (tot : List (String × ℚ)) (k : ℕ),
      tot.map Prod.fst = CATEGORIES →
      ∃ tot2, aggLoop ts (tot, k) = .ok (tot2, k + ignoredCount ts) ∧
        tot2.map Prod.fst = CATEGORIES ∧
        (tot2.map Prod.snd).sum = (tot.map Prod.snd).sum + nonIgnoredSum ts ∧
        ((∀ q ∈ tot.map Prod.snd, 0 ≤ q) → (∀ t ∈ ts, 0 ≤ t.amount) →
          ∀ q ∈ tot2.map Prod.snd, 0 ≤ q) := by
  intro ts
  induction ts with
  | nil =>
    intro tot k hkeys
    exact ⟨tot, by simp [aggLoop, ignoredCount], hkeys,
      by simp [nonIgnoredSum], fun h _ => h⟩
  | cons t ts ih =>
    intro tot k hkeys
    cases hcl : classify_transaction t.merchant_description t.transaction_date t.amount with
    | none =>
      obtain ⟨tot2, hrun, hkeys2, hsum, hnn⟩ := ih tot (k + 1) hkeys
      have higt : isIgnoredTx t = true := by simp [isIgnoredTx, hcl]
      have hcnt : ignoredCount (t :: ts) = ignoredCount ts + 1 := by
        simp [ignoredCount, List.filter_cons, higt]
      have hrun2 : aggLoop (t :: ts) (tot, k) = .ok (tot2, k + ignoredCount (t :: ts)) := by
        have hk : k + ignoredCount (t :: ts) = (k + 1) + ignoredCount ts := by
          rw [hcnt]; omega
        rw [hk]
        simp only [aggLoop, hcl]
        exact hrun
      refine ⟨tot2, hrun2, hkeys2, ?_, ?_⟩
      · rw [hsum]
        have hns : nonIgnoredSum (t :: ts) = nonIgnoredSum ts := by
          simp [nonIgnoredSum, List.filter_cons, higt]
        rw [hns]
      · intro h1 h2
        exact hnn h1 (fun u hu => h2 u (by simp [hu]))
    | some c =>
      have hcok : c ∈ okCats := by
        rcases classify_cases t.merchant_description t.transaction_date t.amount with
          h | ⟨c2, hc2, hmem⟩
        · rw [hcl] at h; cases h
        · rw [hcl] at hc2; cases hc2; exact hmem
      have hcin : c ∈ CATEGORIES := by
        have : ∀ x ∈ okCats, x ∈ CATEGORIES := by decide
        exact this c hcok
      have hcount : (tot.map Prod.fst).count c = 1 := by
        rw [hkeys]
        have : ∀ x ∈ okCats, CATEGORIES.count x = 1 := by decide
        exact this c hcok
      have hmem2 : c ∈ tot.map Prod.fst := hkeys ▸ hcin
      have higt : isIgnoredTx t = false := by simp [isIgnoredTx, hcl]
      obtain ⟨tot2, hrun, hkeys2, hsum, hnn⟩ :=
        ih (tot.map (fun p => if p.1 = c then (p.1, p.2 + t.amount) else p)) k
          (by rw [map_upd_fst, hkeys])
      have hcnt : ignoredCount (t :: ts) = ignoredCount ts := by
        simp [ignoredCount, List.filter_cons, higt]
      have hrun2 : aggLoop (t :: ts) (tot, k) = .ok (tot2, k + ignoredCount (t :: ts)) := by
        rw [hcnt]
        simp only [aggLoop, hcl]
        rw [if_pos hmem2]
        exact hrun
      refine ⟨tot2, hrun2, hkeys2, ?_, ?_⟩
      · rw [hsum, sum_update tot c t.amount hcount]
        have hns : nonIgnoredSum (t :: ts) = t.amount + nonIgnoredSum ts := by
          simp [nonIgnoredSum, List.filter_cons, higt]
        rw [hns]
        ring
      · intro h1 h2
        have hta : 0 ≤ t.amount := h2 t (by simp)
        exact hnn (upd_nonneg tot c t.amount h1 hta) (fun u hu => h2 u (by simp [hu]))

/- ===================== claim theorems ===================== -/

/-- C1: a transaction that is not ignored and not hard-overridden and whose
merchant is food-type classifies as school meals on weekdays (weekday 0 to 4,
Monday through Friday) and as food on Saturday and Sunday (weekday 5 and 6). -/
theorem spec_c1 (m : String) (d : Date) (a : ℚ)
    (hig : should_ignore m = false) (hov : get_hard_override m = none)
    (hf : is_food_type_merchant m a = true) :
    classify_transaction m d a =
      some (if weekday d < 5 then "school meals" else "food") := by
  unfold classify_transaction
  rw [hig, hov, hf]
  by_cases hw : weekday d < 5 <;> simp [hw]

/-- Witness for C1 at a concrete food merchant on Monday, January 1, 2024. -/
theorem spec_c1_witness :
    classify_transaction "MCDONALD X" ⟨2024, 1, 1⟩ 5 =
      some (if weekday ⟨2024, 1, 1⟩ < 5 then "school meals" else "food") ∧
    weekday ⟨2024, 1, 1⟩ = 0 :=
  ⟨spec_c1 "MCDONALD X" ⟨2024, 1, 1⟩ 5 (by decide) (by decide) (by decide), by decide⟩

/-- C2: a merchant whose upper-cased text contains PAYMENT is always ignored,
whatever the date and amount; the ignore check precedes every other rule. -/
theorem spec_c2 (m : String) (d : Date) (a : ℚ)
    (h : containsSub "PAYMENT" (pyUpper m) = true) :
    classify_transaction m d a = none := by
  have hig : should_ignore m = true := by
    unfold should_ignore
    rw [List.any_eq_true]
    exact ⟨"PAYMENT", by simp [IGNORE_PATTERNS], h⟩
  simp [classify_transaction, hig]

/-- Witness for C2 at a concrete lower-case payment line. -/
theorem spec_c2_witness :
    classify_transaction "Preauthorized Payment" ⟨2025, 1, 6⟩ 50 = none :=
  spec_c2 "Preauthorized Payment" ⟨2025, 1, 6⟩ 50 (by decide)

/-- C3 counterexample: a merchant starting with PRESTO that also contains the
ignore keyword PAYMENT is ignored, so the claim that every PRESTO-prefixed
merchant classifies as presto fails: the ignore check runs first. -/
theorem spec_c3_counterexample :
    startsWithS "PRESTO" (pyUpper "PRESTO PAYMENT") = true ∧
    classify_transaction "PRESTO PAYMENT" ⟨2025, 1, 6⟩ 10 = none ∧
    classify_transaction "PRESTO PAYMENT" ⟨2025, 1, 6⟩ 10 ≠ some "presto" :=
  ⟨by decide, by decide, by decide⟩

/-- C3 amended: a merchant whose upper-cased text starts with PRESTO and that
is not ignored classifies as presto (the override list is scanned in order and
PRESTO is its first pattern, matched as a prefix). -/
theorem spec_c3_amended (m : String) (d : Date) (a : ℚ)
    (hig : should_ignore m = false)
    (h : startsWithS "PRESTO" (pyUpper m) = true) :
    classify_transaction m d a = some "presto" := by
  have hov : get_hard_override m = some "presto" := by
    unfold get_hard_override
    have hfind : HARD_OVERRIDES.find? (fun pc =>
        startsWithS pc.1 (pyUpper m) || containsSub pc.1 (pyUpper m)) =
        some ("PRESTO", "presto") := by
      rw [show HARD_OVERRIDES = ("PRESTO", "presto") :: HARD_OVERRIDES.tail from rfl]
      apply List.find?_cons_of_pos
      simp [h]
    rw [hfind]
    rfl
  simp [classify_transaction, hig, hov]

/-- Witness for the amended C3 at a concrete PRESTO merchant. -/
theorem spec_c3_witness :
    classify_transaction "PRESTO FARE" ⟨2025, 1, 6⟩ 3 = some "presto" :=
  spec_c3_amended "PRESTO FARE" ⟨2025, 1, 6⟩ 3 (by decide) (by decide)

/-- C4: a food-exclusion substring always vetoes food detection, for every
amount; and food-typing holds exactly when no exclusion matches and either a
food keyword matches or the amount/length fallback fires. -/
theorem spec_c4 (m : String) (a : ℚ) :
    (FOOD_EXCLUSIONS.any (fun e => containsSub e (pyUpper m)) = true →
      is_food_type_merchant m a = false) ∧
    (is_food_type_merchant m a = true ↔
      (FOOD_EXCLUSIONS.any (fun e => containsSub e (pyUpper m)) = false ∧
       (FOOD_KEYWORDS.any (fun k => containsSub k (pyUpper m)) = true ∨
        (a ≤ 25 ∧ m.length < 40)))) := by
  by_cases hE : FOOD_EXCLUSIONS.any (fun e => containsSub e (pyUpper m)) = true
  · constructor
    · intro _; simp [is_food_type_merchant, hE]
    · simp [is_food_type_merchant, hE]
  · have hE2 : FOOD_EXCLUSIONS.any (fun e => containsSub e (pyUpper m)) = false := by
      revert hE; cases FOOD_EXCLUSIONS.any (fun e => containsSub e (pyUpper m)) <;> simp
    refine ⟨fun hcontra => absurd hcontra (by rw [hE2]; simp), ?_⟩
    by_cases hK : FOOD_KEYWORDS.any (fun k => containsSub k (pyUpper m)) = true
    · simp [is_food_type_merchant, hE2, hK]
    · have hK2 : FOOD_KEYWORDS.any (fun k => containsSub k (pyUpper m)) = false := by
        revert hK; cases FOOD_KEYWORDS.any (fun k => containsSub k (pyUpper m)) <;> simp
      by_cases hF : a ≤ 25 ∧ m.length < 40
      · simp [is_food_type_merchant, hE2, hK2, hF]
      · simp [is_food_type_merchant, hE2, hK2, hF]

/-- Witness for C4 at the exclusion-vetoed supercenter of the spec, with an
amount under the fallback threshold. -/
theorem spec_c4_witness :
    is_food_type_merchant "WALMART SUPERCENTER #456" 12 = false :=
  (spec_c4 "WALMART SUPERCENTER #456" 12).1 (by decide)

/-- C5: a transaction that is not ignored, not overridden and not food-type is
classified by amount alone: at least 100 school, at most 10 groceries,
otherwise other (so exactly 100 gives school, exactly 10 groceries, 50
other). -/
theorem spec_c5 (m : String) (d : Date) (a : ℚ)
    (hig : should_ignore m = false) (hov : get_hard_override m = none)
    (hf : is_food_type_merchant m a = false) :
    classify_transaction m d a =
      some (if a ≥ 100 then "school" else if a ≤ 10 then "groceries" else "other") := by
  unfold classify_transaction
  rw [hig, hov, hf]
  split_ifs <;> simp_all

/-- Witness for C5 at the groceries boundary amount 10 with a non-food
merchant (LOBLAWS is food-excluded but not hard-overridden). -/
theorem spec_c5_witness :
    classify_transaction "LOBLAWS" ⟨2025, 1, 6⟩ 10 = some "groceries" := by
  have h := spec_c5 "LOBLAWS" ⟨2025, 1, 6⟩ 10 (by decide) (by decide) (by decide)
  simpa using h

/-- Shared step for C6: a date built from the inferred year carries the
current year, minus one exactly when the parsed month exceeds the current
month. -/
theorem inferYear_mkDatetime (now : Now) (m d : ℤ) (dt : Date)
    (h : mkDatetime (inferYear now m) m d = some dt) :
    (dt.year : ℤ) =
      (if m > (now.month : ℤ) then (now.year : ℤ) - 1 else (now.year : ℤ)) := by
  unfold mkDatetime at h
  split at h
  · next hcond =>
    obtain ⟨h1, _⟩ := hcond
    simp only [Option.some.injEq] at h
    subst h
    show ((inferYear now m).toNat : ℤ) = _
    rw [Int.toNat_of_nonneg (le_trans zero_le_one h1)]
    rfl
  · simp at h

/-- C6: for dates parsed without an explicit year, both the numeric
month/day branch of _parse_date and the month-abbreviation branch of text
extraction infer the previous calendar year exactly when the parsed month
exceeds the current month, and the current year otherwise. -/
theorem spec_c6 :
    (∀ (now : Now) (ms ds : String) (m : ℤ) (dt : Date),
        pyInt ms = some m → pdFromParts now [ms, ds] = some dt →
        (dt.year : ℤ) =
          (if m > (now.month : ℤ) then (now.year : ℤ) - 1 else (now.year : ℤ))) ∧
    (∀ (now : Now) (m d : ℤ) (dt : Date),
        mkDatetime (inferYear now m) m d = some dt →
        (dt.year : ℤ) =
          (if m > (now.month : ℤ) then (now.year : ℤ) - 1 else (now.year : ℤ))) := by
  constructor
  · intro now ms ds m dt hm h
    have h2 : (match pyInt ms, pyInt ds with
        | some m, some d => mkDatetime (inferYear now m) m d
        | _, _ => none) = some dt := h
    rw [hm] at h2
    cases hd : pyInt ds with
    | none => rw [hd] at h2; simp at h2
    | some d => rw [hd] at h2; exact inferYear_mkDatetime now m d dt h2
  · exact inferYear_mkDatetime

/-- Witness for C6: date strings 12/25 and 02/14 parsed when the current
month is March 2025 get years 2024 and 2025 respectively. -/
theorem spec_c6_witness :
    ((⟨2024, 12, 25⟩ : Date).year : ℤ) =
      (if (12 : ℤ) > (((⟨2025, 3⟩ : Now)).month : ℤ) then (((⟨2025, 3⟩ : Now)).year : ℤ) - 1
       else (((⟨2025, 3⟩ : Now)).year : ℤ)) ∧
    ((⟨2025, 2, 14⟩ : Date).year : ℤ) =
      (if (2 : ℤ) > (((⟨2025, 3⟩ : Now)).month : ℤ) then (((⟨2025, 3⟩ : Now)).year : ℤ) - 1
       else (((⟨2025, 3⟩ : Now)).year : ℤ)) :=
  ⟨spec_c6.1 ⟨2025, 3⟩ "12" "25" 12 ⟨2024, 12, 25⟩ (by decide) (by decide),
   spec_c6.1 ⟨2025, 3⟩ "02" "14" 2 ⟨2025, 2, 14⟩ (by decide) (by decide)⟩

/-- C7, evaluation at the failing input: a page whose single table row yields
a transaction but whose extracted text is the empty string loses the
table-derived transaction entirely, because the combine step of parse sits
inside the page-text truthiness guard; the same page with any non-empty text
keeps it. -/
theorem spec_c7_bug_eval :
    extractFromTable ⟨2025, 6⟩ [[some "MERCHANT X", some "01/05", some "$12.00"]] =
      [⟨"MERCHANT X", ⟨2025, 1, 5⟩, 12⟩] ∧
    parse ⟨2025, 6⟩
      [⟨[[[some "MERCHANT X", some "01/05", some "$12.00"]]], some ""⟩] = .ok [] ∧
    parse ⟨2025, 6⟩
      [⟨[[[some "MERCHANT X", some "01/05", some "$12.00"]]], some "statement page 1"⟩] =
      .ok [⟨"MERCHANT X", ⟨2025, 1, 5⟩, 12⟩] :=
  ⟨by with_unfolding_all decide, by with_unfolding_all decide,
   by with_unfolding_all decide⟩

/-- C8 counterexample: on a transaction list with a negative amount (which
aggregate_by_category accepts without raising) the returned mapping drops the
negative category total, so the sum of returned values differs from total
minus ignored. -/
theorem spec_c8_counterexample :
    aggregate_by_category [⟨"XYZ SHOP", ⟨2025, 1, 6⟩, -5⟩] = .ok ([], 0) ∧
    ¬ ((([] : List (String × ℚ)).map Prod.snd).sum =
        sumAmounts [⟨"XYZ SHOP", ⟨2025, 1, 6⟩, -5⟩] -
          ignoredSum [⟨"XYZ SHOP", ⟨2025, 1, 6⟩, -5⟩]) :=
  ⟨by with_unfolding_all decide, by with_unfolding_all decide⟩

/-- C8 amended: on every transaction list whose amounts are all nonnegative,
the sum of the returned category totals equals the sum of all amounts minus
the sum of ignored amounts, and the returned skipped count is the number of
IGNORE-verdict transactions; dropping non-positive totals does not change the
sum because every total is then nonnegative and the dropped ones are zero. -/
theorem spec_c8_amended (ts : List Tx) (r : List (String × ℚ)) (k : ℕ)
    (hpos : ∀ t ∈ ts, 0 ≤ t.amount)
    (h : aggregate_by_category ts = .ok (r, k)) :
    (r.map Prod.snd).sum = sumAmounts ts - ignoredSum ts ∧ k = ignoredCount ts := by
  have hkeys0 : (CATEGORIES.map (fun c => (c, (0 : ℚ)))).map Prod.fst = CATEGORIES := by
    decide
  obtain ⟨tot2, hrun, hkeys, hsum, hnn⟩ :=
    aggLoop_spec ts (CATEGORIES.map (fun c => (c, (0 : ℚ)))) 0 hkeys0
  unfold aggregate_by_category at h
  rw [hrun] at h
  simp only [Except.map, Except.ok.injEq, Prod.mk.injEq] at h
  obtain ⟨hr, hk⟩ := h
  have hinit : ∀ q ∈ (CATEGORIES.map (fun c => (c, (0 : ℚ)))).map Prod.snd, 0 ≤ q := by
    with_unfolding_all decide
  constructor
  · rw [← hr, sum_filter_pos tot2 (hnn hinit hpos), hsum]
    have hzero : ((CATEGORIES.map (fun c => (c, (0 : ℚ)))).map Prod.snd).sum = 0 := by
      with_unfolding_all decide
    rw [hzero, sumAmounts_split ts]
    ring
  · rw [← hk]
    simp

/-- Witness for the amended C8 at a one-transaction groceries list. -/
theorem spec_c8_witness :
    (([("groceries", (10 : ℚ))]).map Prod.snd).sum =
      sumAmounts [⟨"LOBLAWS", ⟨2025, 1, 6⟩, 10⟩] -
        ignoredSum [⟨"LOBLAWS", ⟨2025, 1, 6⟩, 10⟩] ∧
    0 = ignoredCount [⟨"LOBLAWS", ⟨2025, 1, 6⟩, 10⟩] :=
  spec_c8_amended [⟨"LOBLAWS", ⟨2025, 1, 6⟩, 10⟩] [("groceries", 10)] 0
    (by with_unfolding_all decide) (by with_unfolding_all decide)

/-- C9 counterexample: the cell consisting of two commas, a dot and two digits
is recognised by table extraction as amount 0.45 (and a full row with that
cell yields a transaction), yet the cell contains no token of the claimed
shape, which requires at least one digit before the decimal point. -/
theorem spec_c9_counterexample :
    findAmountTok (",,.45".data) = some (",,.45".data) ∧
    extractFromTable ⟨2025, 6⟩ [[some "MERCHANT Y", some "01/05", some ",,.45"]] =
      [⟨"MERCHANT Y", ⟨2025, 1, 5⟩, 9 / 20⟩] ∧
    specTokenSomewhere (",,.45".data) = false :=
  ⟨by decide, by with_unfolding_all decide, by decide⟩

/-- C9 amended: whenever the table amount search recognises a token it has the
grammar one-or-more digit-or-comma characters, a dot, exactly two digits, and
occurs inside the cell; whenever the text amount search recognises a token it
has the same grammar and the line ends with a dollar sign, optional
whitespace, the token and optional whitespace (nothing else follows, so on the
stripped lines the extractor processes the token is anchored at the end); the
recognised value is the comma-stripped token read as a decimal number. -/
theorem spec_c9_amended :
    (∀ (l tok : List Char), findAmountTok l = some tok → TokShape tok ∧ tok <:+: l) ∧
    (∀ (l : List Char) (i : ℕ) (tok : List Char),
        textAmountSearch l = some (i, tok) →
        TokShape tok ∧ ∃ pre mid post, mid.all isWs = true ∧ post.all isWs = true ∧
          l = pre ++ '$' :: (mid ++ tok ++ post)) ∧
    (∀ (tok body : List Char) (a b : Char),
        tok = body ++ ['.', a, b] → (∀ c ∈ body, isDigComma c = true) →
        a.isDigit = true → b.isDigit = true →
        ratOfTok tok = (natOfDigits (tok.filter Char.isDigit) : ℚ) / 100) :=
  ⟨findAmountTok_spec, textAmountSearch_spec, ratOfTok_val⟩

/-- Witness for the amended C9 at a concrete cell and a concrete line. -/
theorem spec_c9_witness :
    (TokShape ("1,234.56".data) ∧ ("1,234.56".data) <:+: ("AB $1,234.56".data)) ∧
    ratOfTok ("1,234.56".data) =
      (natOfDigits (("1,234.56".data).filter Char.isDigit) : ℚ) / 100 :=
  ⟨spec_c9_amended.1 ("AB $1,234.56".data) ("1,234.56".data) (by decide),
   spec_c9_amended.2.2 ("1,234.56".data) ("1,234".data) '5' '6' (by decide)
     (by decide) (by decide) (by decide)⟩



/-- C10: the classifier returns none or one of the eight categories and never
the reserved mom stuff, so the invalid-category error branch of aggregation is
unreachable: aggregation succeeds on every transaction list. -/
theorem spec_c10 :
    (∀ (m : String) (d : Date) (a : ℚ),
        classify_transaction m d a = none ∨
        ∃ c, classify_transaction m d a = some c ∧ c ∈ CATEGORIES ∧ c ≠ "mom stuff") ∧
    (∀ ts : List Tx, ∃ r, aggregate_by_category ts = .ok r) := by
  constructor
  · intro m d a
    rcases classify_cases m d a with h | ⟨c, hc, hmem⟩
    · exact Or.inl h
    · have hall : ∀ x ∈ okCats, x ∈ CATEGORIES ∧ x ≠ "mom stuff" := by decide
      exact Or.inr ⟨c, hc, (hall c hmem).1, (hall c hmem).2⟩
  · intro ts
    have hkeys0 : (CATEGORIES.map (fun c => (c, (0 : ℚ)))).map Prod.fst = CATEGORIES := by
      decide
    obtain ⟨tot2, hrun, -, -, -⟩ :=
      aggLoop_spec ts (CATEGORIES.map (fun c => (c, (0 : ℚ)))) 0 hkeys0
    refine ⟨(tot2.filter (fun p => decide ((0 : ℚ) < p.2)), 0 + ignoredCount ts), ?_⟩
    unfold aggregate_by_category
    rw [hrun]
    rfl
